import Mathlib

/-!
Shallow embedding of the jsmessengerbot event-dispatch and conversation-state
engine (src/index.js, src/scenes.js, src/context.js, src/sessionStore.js).

Conventions of the embedding:
* JavaScript primitive values stored in a session are modelled by `JsVal`
  (numbers as `Int`, strings, booleans); JS objects used as string-keyed maps
  (sessions, the session stores, the scene registry, the action registry) are
  modelled as association lists with insertion-order-preserving update, which
  matches JS object property semantics for the operations the code performs.
* Mutation of the shared `ctx` object is modelled by explicit state passing.
* `async`/`await` sequencing is strictly sequential in the code, so it is
  modelled by ordinary function composition.
* A thrown JS exception in scene handling is modelled by `Option` (`none` =
  the call threw); in the middleware runner, where `try`/`catch` appears in
  the source, by an explicit `MwOut.err` outcome carrying the error value
  (errors are modelled as strings).
-/

/-- A JavaScript primitive value as it occurs in sessions. Numbers are
modelled as integers (the code only ever stores and increments integer step
counters). -/
inductive JsVal where
  | num (n : Int)
  | str (s : String)
  | bool (b : Bool)
deriving DecidableEq

/-- JS truthiness of a `JsVal` (`0`, `""`, `false` are falsy). -/
def jsTruthy : JsVal → Bool
  | JsVal.num n => n ≠ 0
  | JsVal.str s => s ≠ ""
  | JsVal.bool b => b

/-- JS object-property-key coercion of a `JsVal` to a string. -/
def jsKeyStr : JsVal → String
  | JsVal.num n => toString n
  | JsVal.str s => s
  | JsVal.bool b => toString b

/-- A session: a JS object used as a string-keyed map (`ctx.session`). -/
abbrev Session := List (String × JsVal)

/-- Association-list lookup: JS property read `m[k]` (first binding wins;
bindings are unique because `alSet` updates in place). -/
def alGet {α : Type} : List (String × α) → String → Option α
  | [], _ => none
  | (k', v) :: rest, k => if k' = k then some v else alGet rest k

/-- Association-list update: JS property write `m[k] = v` (updates an existing
binding in place, otherwise appends, preserving JS property order). -/
def alSet {α : Type} : List (String × α) → String → α → List (String × α)
  | [], k, v => [(k, v)]
  | (k', v') :: rest, k, v =>
      if k' = k then (k, v) :: rest else (k', v') :: alSet rest k v

/-- JS property deletion `delete m[k]`. -/
def alDel {α : Type} (m : List (String × α)) (k : String) : List (String × α) :=
  m.filter (fun p => p.1 != k)

/-- `ctx.session.k` read. -/
def Session.get (s : Session) (k : String) : Option JsVal := alGet s k

/-- `ctx.session.k = v` write. -/
def Session.set (s : Session) (k : String) (v : JsVal) : Session := alSet s k v

/-- The per-event context object (`src/context.js`). The `bot` backreference
and the reply/attachment helpers are outbound-I/O and are not part of the
dispatch state; `scene` holds the attached scene's name (the JS field holds
the scene object itself, whose identity is its name). `sceneStopped` models
the transient `ctx._sceneStopped` flag (absent = `false`). -/
structure Context where
  chatId : Option String
  fromId : Option String
  text : Option String
  session : Session
  scene : Option String
  sceneStopped : Bool
deriving DecidableEq

/-- JS truthiness of `ctx.text` (a string or `undefined`). -/
def ctxTextTruthy (ctx : Context) : Bool :=
  match ctx.text with
  | some t => t ≠ ""
  | none => false

/-- A JS return value of a handler or scene step, as far as the dispatch
logic inspects it: the strict comparisons `result === true` and
`result !== false` only distinguish `true`, `false` and everything else. -/
inductive JsRet where
  | retTrue
  | retFalse
  | retOther
deriving DecidableEq

/-- A scene step handler: receives the context, may mutate it, and returns a
value (`src/scenes.js` `steps`). -/
abbrev Step := Context → Context × JsRet

/-- A scene: a name and an ordered list of step handlers (`src/scenes.js`). -/
structure Scene where
  name : String
  steps : List Step

/-- `Scene.leave` (src/scenes.js lines 89-95): deletes every key of the
session, detaches the scene from the context and sets `_sceneStopped`. -/
def Scene.leave (_sc : Scene) (ctx : Context) : Context :=
  { ctx with session := [], scene := none, sceneStopped := true }

/-- The number read by `typeof ctx.session.step === 'number' ? ctx.session.step : 0`
(src/scenes.js line 99): a stored numeric step, defaulting to 0 when the key
is absent or holds a non-number. -/
def sessStep (s : Session) : Int :=
  match Session.get s "step" with
  | some (JsVal.num n) => n
  | _ => 0

/-- `Scene.handle` (src/scenes.js lines 98-111), instrumented: the first
component is the resulting context (`none` models the `TypeError` the JS
code throws when the defaulted step index is negative, so that
`this.steps[step]` is `undefined` and is then called); the second component
records which step index was invoked, if any. The auto-increment runs only
when the post-call session still holds the numeric pre-call index
(`ctx.session.step === prevStep`), `ctx.text` is truthy and the step's
return value is not strictly `false`. -/
def Scene.handleT (sc : Scene) (ctx : Context) : Option Context × Option Nat :=
  let step : Int := sessStep ctx.session
  if hlt : step < (sc.steps.length : Int) then
    if hge : 0 ≤ step then
      let f := sc.steps.get ⟨step.toNat, by omega⟩
      let pr := f ctx
      if Session.get pr.1.session "step" = some (JsVal.num step) ∧
          ctxTextTruthy pr.1 ∧ pr.2 ≠ JsRet.retFalse then
        (some { pr.1 with
                  session := Session.set pr.1.session "step" (JsVal.num (step + 1)) },
         some step.toNat)
      else
        (some pr.1, some step.toNat)
    else
      (none, none)
  else
    (some (sc.leave ctx), none)

/-- `Scene.handle`: the context produced by `handleT` (the instrumentation
projected away). -/
def Scene.handle (sc : Scene) (ctx : Context) : Option Context :=
  (sc.handleT ctx).1

/-! ## Session stores

`src/sessionStore.js` (the file-backed default store of the bot) and the
`MemorySessionStore`/`FileSessionStore` of `src/scenes.js`. The whole-file
JSON state of a file store is modelled by `FsFile`: the file may be absent,
may hold unparseable content (`readSessions` catches the parse error), or
holds a map from identifiers to sessions. -/

/-- A session store's map state: identifiers to sessions. -/
abbrev Store := List (String × Session)

/-- `MemorySessionStore.get` (src/scenes.js lines 13-15): `sessions[id] || {}`. -/
def memGet (st : Store) (id : String) : Session := (alGet st id).getD []

/-- `MemorySessionStore.set`: `sessions[id] = session`. -/
def memSet (st : Store) (id : String) (s : Session) : Store := alSet st id s

/-- `MemorySessionStore.clear`: `delete sessions[id]`. -/
def memClear (st : Store) (id : String) : Store := alDel st id

/-- The on-disk state seen by the file-backed stores. -/
inductive FsFile where
  | absent
  | corrupt
  | content (m : Store)

/-- `readSessions` (src/sessionStore.js lines 10-17): missing file or a JSON
parse error both yield the empty map. -/
def readSessions : FsFile → Store
  | FsFile.absent => []
  | FsFile.corrupt => []
  | FsFile.content m => m

/-- `sessionStore.get` (src/sessionStore.js lines 37-40): `sessions[id] || {}`. -/
def fileGet (f : FsFile) (id : String) : Session := (alGet (readSessions f) id).getD []

/-- `sessionStore.set` (src/sessionStore.js lines 48-52): read-modify-write of
the whole file. -/
def fileSet (f : FsFile) (id : String) (s : Session) : FsFile :=
  FsFile.content (alSet (readSessions f) id s)

/-- `sessionStore.clear` (src/sessionStore.js lines 59-63). -/
def fileClear (f : FsFile) (id : String) : FsFile :=
  FsFile.content (alDel (readSessions f) id)

/-- An abstract client operation against a session store (the store
contract's mutators). -/
inductive StoreOp where
  | setOp (id : String) (sess : Session)
  | clearOp (id : String)
deriving DecidableEq

/-- Run one operation against the in-memory store. -/
def applyOpMem (st : Store) : StoreOp → Store
  | StoreOp.setOp id s => memSet st id s
  | StoreOp.clearOp id => memClear st id

/-- Run a list of operations, oldest first, against the in-memory store. -/
def applyOpsMem : List StoreOp → Store → Store
  | [], st => st
  | op :: rest, st => applyOpsMem rest (applyOpMem st op)

/-- Run one operation against the file-backed store. -/
def applyOpFile (f : FsFile) : StoreOp → FsFile
  | StoreOp.setOp id s => fileSet f id s
  | StoreOp.clearOp id => fileClear f id

/-- Run a list of operations, oldest first, against the file-backed store. -/
def applyOpsFile : List StoreOp → FsFile → FsFile
  | [], f => f
  | op :: rest, f => applyOpsFile rest (applyOpFile f op)

/-! ## Scene manager (src/scenes.js lines 118-171) -/

/-- `ctx.chat?.id || ctx.from?.id || 'default'` (src/scenes.js line 141):
JS `||` falls through on falsy values (absent or empty-string ids). -/
def derivedId (ctx : Context) : String :=
  match ctx.chatId with
  | some s => if s = "" then
      (match ctx.fromId with
       | some s' => if s' = "" then "default" else s'
       | none => "default")
    else s
  | none =>
      match ctx.fromId with
      | some s' => if s' = "" then "default" else s'
      | none => "default"

/-- The scene registry of a `SceneManager` (`this.scenes`, name-keyed;
`register` overwrites in place, last write wins). -/
abbrev SceneMap := List (String × Scene)

/-- `SceneManager.register` (src/scenes.js lines 130-132). -/
def SceneManager.register (m : SceneMap) (sc : Scene) : SceneMap :=
  alSet m sc.name sc

/-- `SceneManager.middleware` (src/scenes.js lines 138-162), with the
manager's session store threaded explicitly. `next` is the chain's
continuation; it may mutate both the store and the context, and `none`
models a continuation that throws. The interceptor: loads the session for
the derived id, resumes a truthy, registered, non-stopped scene (marking the
event handled) or else calls `next`, and finally persists the session via
`set`. A `none` result models an exception escaping the interceptor (from
`handle` or from `next`), in which case the final `set` is not reached. -/
def SceneManager.middlewareRun (scenes : SceneMap)
    (next : Store × Context → Option (Store × Context)) :
    Store × Context → Option (Store × Context) := fun st =>
  let store := st.1
  let id := derivedId st.2
  let ctx1 := { st.2 with session := memGet store id }
  let active : Option Scene :=
    match Session.get ctx1.session "__scene" with
    | some v => if jsTruthy v then alGet scenes (jsKeyStr v) else none
    | none => none
  match active with
  | some sc =>
    if ctx1.sceneStopped then
      match next (store, ctx1) with
      | some (store2, ctx2) => some (memSet store2 id ctx2.session, ctx2)
      | none => none
    else
      let ctx2 := { ctx1 with scene := some sc.name }
      match Scene.handle sc ctx2 with
      | some ctx3 => some (memSet store id ctx3.session, ctx3)
      | none => none
  | none =>
    match next (store, ctx1) with
    | some (store2, ctx2) => some (memSet store2 id ctx2.session, ctx2)
    | none => none

/-! ## Middleware chain runner (src/index.js lines 204-220)

A middleware registered with `use` is a function of `(ctx, next)`; what it
can do to the dispatch state is: mutate the context, invoke `next` (any
number of times, anywhere in its body), and throw.  A middleware body is
therefore embedded as a list of `MwAct` actions executed in order.  The
runner itself (`runMiddlewares`) is embedded shallowly: the closure variable
`index` guarding re-entry, the `try`/`catch` routing errors to
`this.errorHandler`, and the continuation `() => runner(i + 1)` are all
modelled exactly as in the source.  The structural `fuel` argument bounds
the nesting depth of `runner` calls; `runMiddlewares` passes
`middlewares.length`, which the invariants below show is never exhausted. -/

/-- One step of a middleware body: call `next()`, mutate the context, or
throw. -/
inductive MwAct where
  | next
  | modifyCtx (f : Context → Context)
  | throwErr (e : String)

/-- Trace events recorded by the instrumented runner: middleware `i` started
executing, middleware `i` threw `e`, the global error handler consumed `e`
thrown inside middleware `i`. -/
inductive MwEv where
  | ran (i : Nat)
  | threw (i : Nat) (e : String)
  | handled (i : Nat) (e : String)
deriving DecidableEq

/-- The runner's mutable state: the context, the `index` guard variable
(initially `-1`), and the instrumentation trace. -/
structure MwState where
  ctx : Context
  index : Int
  trace : List MwEv
deriving DecidableEq

/-- Outcome of running (part of) the chain: normal completion, or an error
propagating out (the state records everything done up to the throw). -/
inductive MwOut where
  | ok (s : MwState)
  | err (e : String) (s : MwState)
deriving DecidableEq

/-- The state carried by either outcome. -/
def MwOut.state : MwOut → MwState
  | MwOut.ok s => s
  | MwOut.err _ s => s

/-- Execute a middleware body (level `i`) action by action. `cn` is the
continuation `() => runner(i + 1)` the middleware received as `next`. An
error — thrown here or propagating out of a nested `cn` call — aborts the
remaining actions. -/
def execActs (i : Nat) (cn : MwState → MwOut) : List MwAct → MwState → MwOut
  | [], s => MwOut.ok s
  | MwAct.next :: rest, s =>
    match cn s with
    | MwOut.ok s2 => execActs i cn rest s2
    | MwOut.err e s2 => MwOut.err e s2
  | MwAct.modifyCtx f :: rest, s => execActs i cn rest { s with ctx := f s.ctx }
  | MwAct.throwErr e :: _, s =>
      MwOut.err e { s with trace := s.trace ++ [MwEv.threw i e] }

/-- The bot instance (src/index.js): the fields that drive the dispatch.
`handlers = { message: [], postback: [] }` is flattened into two lists, and
the session store is the store's map state. A handler receives the context
and produces the mutated context and its return value. -/
structure MessengerBot where
  middlewares : List (List MwAct)
  errorHandler : Option (String → Context → Context)
  messageHandlers : List (Context → Context × JsRet)
  postbackHandlers : List (Context → Context × JsRet)
  actions : List (String × (Context → Context × JsRet))
  store : Store

/-- The recursive `runner` of `runMiddlewares` (src/index.js lines 206-218):
`if (i <= index) return; index = i; const fn = this.middlewares[i];
if (fn) { try { await fn(ctx, () => runner(i + 1)) } catch (err) {
if (this.errorHandler) await this.errorHandler(err, ctx); else throw err } }`.
The first `fuel` pattern can only be reached past the guards when the fuel
argument is insufficient, which `runMiddlewares`'s choice of fuel rules
out. -/
def mwRunner (bot : MessengerBot) : Nat → Nat → MwState → MwOut
  | 0, i, s =>
    if (i : Int) ≤ s.index then MwOut.ok s
    else
      let s1 : MwState := { s with index := (i : Int) }
      if i < bot.middlewares.length then MwOut.err "out-of-fuel" s1 else MwOut.ok s1
  | Nat.succ fuel, i, s =>
    if (i : Int) ≤ s.index then MwOut.ok s
    else
      let s1 : MwState := { s with index := (i : Int) }
      if hi : i < bot.middlewares.length then
        let s2 : MwState := { s1 with trace := s1.trace ++ [MwEv.ran i] }
        match execActs i (fun st => mwRunner bot fuel (i + 1) st)
            (bot.middlewares.get ⟨i, hi⟩) s2 with
        | MwOut.ok s3 => MwOut.ok s3
        | MwOut.err e s3 =>
          match bot.errorHandler with
          | some hf =>
              MwOut.ok { s3 with ctx := hf e s3.ctx,
                                 trace := s3.trace ++ [MwEv.handled i e] }
          | none => MwOut.err e s3
      else MwOut.ok s1

/-- `runMiddlewares(ctx)` (src/index.js lines 204-220): `index = -1;
await runner(0)`. -/
def runMiddlewares (bot : MessengerBot) (ctx : Context) : MwOut :=
  mwRunner bot bot.middlewares.length 0 { ctx := ctx, index := -1, trace := [] }

/-! ## Handler registration wrappers and webhook dispatch (src/index.js) -/

/-- A `hears`/`command` trigger: a string literal, or a regex modelled by its
`test` predicate on the text. -/
inductive Pattern where
  | lit (s : String)
  | re (test : String → Bool)

/-- `sub.isPrefixOf`-based substring containment: JS `t.includes(sub)`. -/
def listIncl (sub : List Char) : List Char → Bool
  | [] => sub.isEmpty
  | c :: rest => sub.isPrefixOf (c :: rest) || listIncl sub rest

/-- JS `t.includes(sub)`. -/
def strIncludes (t sub : String) : Bool := listIncl sub.toList t.toList

/-- Whether a `hears` pattern matches a text: string patterns by substring
containment, regex patterns by `test` (src/index.js lines 31-38). -/
def patTestHears : Pattern → String → Bool
  | Pattern.lit p, t => strIncludes t p
  | Pattern.re f, t => f t

/-- Whether a `command` trigger matches a text: string triggers by exact
equality, regex triggers by `test` (src/index.js lines 174-181). -/
def patTestCommand : Pattern → String → Bool
  | Pattern.lit p, t => t = p
  | Pattern.re f, t => f t

/-- The generic message handler that `hears(patterns, fn)` registers via
`on('message', ...)` (src/index.js lines 27-43): if `ctx.text` is truthy and
some pattern matches, run `fn` and return `true`; otherwise return `false`. -/
def hearsHandler (pats : List Pattern) (fn : Context → Context) :
    Context → Context × JsRet := fun ctx =>
  match ctx.text with
  | some t =>
    if t = "" then (ctx, JsRet.retFalse)
    else
      match pats.find? (fun p => patTestHears p t) with
      | some _ => (fn ctx, JsRet.retTrue)
      | none => (ctx, JsRet.retFalse)
  | none => (ctx, JsRet.retFalse)

/-- The generic message handler that `command(cmds, fn)` registers
(src/index.js lines 170-186), analogous to `hearsHandler`. -/
def commandHandler (cmds : List Pattern) (fn : Context → Context) :
    Context → Context × JsRet := fun ctx =>
  match ctx.text with
  | some t =>
    if t = "" then (ctx, JsRet.retFalse)
    else
      match cmds.find? (fun p => patTestCommand p t) with
      | some _ => (fn ctx, JsRet.retTrue)
      | none => (ctx, JsRet.retFalse)
  | none => (ctx, JsRet.retFalse)

/-- Result of one dispatch loop over a handler list: the final context, the
final `handled` flag, and which handler positions were invoked. -/
structure DispOut where
  ctx : Context
  handled : Bool
  invoked : List Nat
deriving DecidableEq

/-- The dispatch loop of the webhook handler (src/index.js lines 282-287 and
297-302): `for (const fn of handlers) { if (!handled) { const result =
await fn(ctx); if (result === true) handled = true } }`. `k` is the position
of the first handler of `hs` in the full list, used only by the
instrumentation record. -/
def dispatchLoop : List (Context → Context × JsRet) → Context → Bool → Nat → DispOut
  | [], ctx, handled, _ => ⟨ctx, handled, []⟩
  | f :: rest, ctx, handled, k =>
    if handled then dispatchLoop rest ctx handled (k + 1)
    else
      let pr := f ctx
      let handled' := if pr.2 = JsRet.retTrue then true else handled
      let out := dispatchLoop rest pr.1 handled' (k + 1)
      ⟨out.ctx, out.handled, k :: out.invoked⟩

/-- One inbound webhook messaging event (`entry.messaging[0]`): the sender
id (`""` models an absent/falsy id), the message text if the event carries a
text message, and the postback payload if it carries a postback. -/
structure Event where
  senderId : String
  messageText : Option String
  postback : Option String

/-- `new Context(this, event, senderId)` (src/context.js lines 1-18), the
fields relevant to dispatch: `chat = { id: senderId }`, `text =
event.message?.text`, empty session, no scene. -/
def mkContext (ev : Event) : Context :=
  { chatId := some ev.senderId, fromId := none, text := ev.messageText,
    session := [], scene := none, sceneStopped := false }

/-- The observable outcome of processing one webhook event. -/
structure ProcOut where
  ctx : Context
  store : Store
  mwTrace : List MwEv
  msgRan : List Nat
  pbRan : List Nat
  actionRan : Bool
  uncaught : Option String
deriving DecidableEq

/-- Processing of one event by the webhook POST handler (src/index.js lines
264-308): skip events without a sender id, build the context, load the
session, run the middleware chain (an uncaught middleware error rejects the
rest of the processing for this event, including the session save), then —
unconditionally after the chain — dispatch message handlers (only when the
event has truthy message text), run the exact-payload action and the
postback handlers (the `handled` flag is shared between the message and
postback sections), and save the session. -/
def processEvent (bot : MessengerBot) (ev : Event) : Option ProcOut :=
  if ev.senderId = "" then none
  else
    let ctx0 := mkContext ev
    let ctx1 := { ctx0 with session := memGet bot.store ev.senderId }
    match runMiddlewares bot ctx1 with
    | MwOut.err e st =>
        some { ctx := st.ctx, store := bot.store, mwTrace := st.trace,
               msgRan := [], pbRan := [], actionRan := false, uncaught := some e }
    | MwOut.ok st =>
      let msg : DispOut :=
        match ev.messageText with
        | some t =>
            if t = "" then ⟨st.ctx, false, []⟩
            else dispatchLoop bot.messageHandlers st.ctx false 0
        | none => ⟨st.ctx, false, []⟩
      let pb : DispOut × Bool :=
        match ev.postback with
        | some p =>
          match alGet bot.actions p with
          | some f =>
            let pr := f msg.ctx
            let h1 := if pr.2 = JsRet.retTrue then true else msg.handled
            (dispatchLoop bot.postbackHandlers pr.1 h1 0, true)
          | none => (dispatchLoop bot.postbackHandlers msg.ctx msg.handled 0, false)
        | none => (⟨msg.ctx, msg.handled, []⟩, false)
      some { ctx := pb.1.ctx,
             store := memSet bot.store ev.senderId pb.1.ctx.session,
             mwTrace := st.trace, msgRan := msg.invoked, pbRan := pb.1.invoked,
             actionRan := pb.2, uncaught := none }

/-! ## Concrete instances used by witnesses and counterexamples -/

/-- A one-step scene whose step handler does nothing and returns a
non-`false` value. -/
def sceneOne : Scene := ⟨"reg", [fun c => (c, JsRet.retOther)]⟩

/-- A context inside `sceneOne` at step 0, carrying text. -/
def ctxSceneStep0 : Context :=
  { chatId := some "u", fromId := none, text := some "hi",
    session := [("__scene", JsVal.str "reg"), ("step", JsVal.num 0)],
    scene := some "reg", sceneStopped := false }

/-- A context inside `sceneOne` whose stored step index equals the step
count. -/
def ctxSceneStep1 : Context :=
  { chatId := some "u", fromId := none, text := some "hi",
    session := [("__scene", JsVal.str "reg"), ("step", JsVal.num 1)],
    scene := some "reg", sceneStopped := false }

/-- A one-step scene whose step handler returns `false` (validation
failure). -/
def sceneFalse : Scene := ⟨"v", [fun c => (c, JsRet.retFalse)]⟩

/-- A one-step scene whose step handler manually moves the step index to 5
and returns a non-`false` value. -/
def sceneSetStep : Scene :=
  ⟨"w", [fun c => ({ c with session := Session.set c.session "step" (JsVal.num 5) },
                   JsRet.retOther)]⟩

/-- A context with text whose stored step index is 0. -/
def ctxStep0 : Context :=
  { chatId := some "u", fromId := none, text := some "x",
    session := [("step", JsVal.num 0)], scene := none, sceneStopped := false }

/-- A context with text whose stored step index is 5 (out of bounds for the
one-step scenes). -/
def ctxStep5 : Context :=
  { chatId := some "u", fromId := none, text := some "x",
    session := [("step", JsVal.num 5)], scene := none, sceneStopped := false }

/-- A context with no id, no text and an empty session. -/
def ctxEmpty : Context :=
  { chatId := some "u", fromId := none, text := none, session := [],
    scene := none, sceneStopped := false }

/-- The identity chain continuation (a `next` that does nothing). -/
def nextId : Store × Context → Option (Store × Context) := fun p => some p

/-- The callback given to `hears("hi", ...)` in the scenario: records that it
ran in the session. -/
def hearsFn (c : Context) : Context :=
  { c with session := Session.set c.session "heard" (JsVal.num 1) }

/-- The observer handler `logFn` registered via `on('message', logFn)` in the
scenario: records that it ran and returns `undefined`. -/
def logFn : Context → Context × JsRet := fun c =>
  ({ c with session := Session.set c.session "logged" (JsVal.num 1) }, JsRet.retOther)

/-- The scenario bot of claim C1: `hears("hi", hearsFn)` registered first,
then `on('message', logFn)`. -/
def botHearsLog : MessengerBot :=
  { middlewares := [], errorHandler := none,
    messageHandlers := [hearsHandler [Pattern.lit "hi"] hearsFn, logFn],
    postbackHandlers := [], actions := [], store := [] }

/-- A message event with text `"hi there"`. -/
def evHiThere : Event := { senderId := "u1", messageText := some "hi there", postback := none }

/-- A message handler that records in the session that dispatch ran. -/
def markRan : Context → Context × JsRet := fun c =>
  ({ c with session := Session.set c.session "ran" (JsVal.num 1) }, JsRet.retOther)

/-- The scenario bot of claim C2: one middleware whose body is empty — it
never calls its `next` continuation — and one generic message handler. -/
def botNoNext : MessengerBot :=
  { middlewares := [[]], errorHandler := none, messageHandlers := [markRan],
    postbackHandlers := [], actions := [], store := [] }

/-- A message event with text `"x"`. -/
def evX : Event := { senderId := "u2", messageText := some "x", postback := none }

/-- A bot with a global error handler and a single middleware that throws. -/
def botCatch : MessengerBot :=
  { middlewares := [[MwAct.throwErr "boom"]], errorHandler := some (fun _ c => c),
    messageHandlers := [], postbackHandlers := [], actions := [], store := [] }

/-- A bot whose first middleware invokes `next` twice, with a second
middleware behind it. -/
def botDoubleNext : MessengerBot :=
  { middlewares := [[MwAct.next, MwAct.next], []], errorHandler := none,
    messageHandlers := [], postbackHandlers := [], actions := [], store := [] }

/-- The outcome of `processEvent botNoNext evX`, spelled out. -/
def outNoNext : ProcOut :=
  { ctx := { chatId := some "u2", fromId := none, text := some "x",
             session := [("ran", JsVal.num 1)], scene := none, sceneStopped := false },
    store := [("u2", [("ran", JsVal.num 1)])],
    mwTrace := [MwEv.ran 0], msgRan := [0], pbRan := [], actionRan := false,
    uncaught := none }

/-! # Theorems -/

/-! ## Scene state machine: claims C3, C4, C5, C10 -/

/-- Claim C10: `Scene.handle` never invokes a step function out of range.
The invoked index, when there is one, is exactly the (defaulted) stored step
index and is strictly below the step count; a stored step value that is
absent or non-numeric is treated as index 0; and when the defaulted index is
at least the step count, no step function is applied at all — the scene is
left and nothing else happens. -/
theorem scene_handle_never_out_of_range (sc : Scene) (ctx : Context) :
    (∀ i, (Scene.handleT sc ctx).2 = some i →
        (i : Int) = sessStep ctx.session ∧ i < sc.steps.length) ∧
    ((∀ n : Int, Session.get ctx.session "step" ≠ some (JsVal.num n)) →
        sessStep ctx.session = 0) ∧
    ((sc.steps.length : Int) ≤ sessStep ctx.session →
        Scene.handleT sc ctx = (some (sc.leave ctx), none)) := by
  refine ⟨?_, ?_, ?_⟩
  · intro i hi
    simp only [Scene.handleT] at hi
    split at hi
    · rename_i hlt
      split at hi
      · rename_i hge
        split at hi <;>
          · injection hi with h
            subst h
            exact ⟨by omega, by omega⟩
      · simp at hi
    · simp at hi
  · intro h
    unfold sessStep
    split
    · rename_i heq
      exact absurd heq (h _)
    · rfl
  · intro h
    simp only [Scene.handleT]
    rw [dif_neg (by omega)]

theorem scene_handle_never_out_of_range_witness :
    Scene.handleT sceneFalse ctxStep5 = (some (Scene.leave sceneFalse ctxStep5), none) :=
  (scene_handle_never_out_of_range sceneFalse ctxStep5).2.2 (by decide)

/-- Counterexample to claim C3 as stated: in `sceneOne` (step count 1),
running `handle` from step 0 executes the step handler and auto-increments
the recorded step index to 1 — equal to the step count — yet when `handle`
returns the session still holds the scene cursor (it is not the empty
mapping) and the scene is still attached to the context. The exit happens
only on the next `handle` call. -/
theorem scene_complete_not_cleared_same_call_cex :
    (Scene.handle sceneOne ctxSceneStep0).map (fun c => (c.session, c.scene)) =
      some ([("__scene", JsVal.str "reg"), ("step", JsVal.num 1)], some "reg") := by
  decide

/-- Claim C3 (amended): when `handle` is invoked with the recorded step
index equal to the scene's step count (as happens on the event after the
last step ran), it leaves the scene: the session becomes the empty mapping
and the scene reference on the context is set back to `null`. The clearing
happens in this next invocation, not in the call that advanced the index to
the step count. -/
theorem scene_exit_on_next_handle (sc : Scene) (ctx : Context)
    (h : sessStep ctx.session = (sc.steps.length : Int)) :
    Scene.handle sc ctx = some (sc.leave ctx) ∧
      (sc.leave ctx).session = [] ∧ (sc.leave ctx).scene = none := by
  refine ⟨?_, rfl, rfl⟩
  simp only [Scene.handle, Scene.handleT]
  rw [dif_neg (by omega)]

theorem scene_exit_on_next_handle_witness :
    Scene.handle sceneOne ctxSceneStep1 = some (Scene.leave sceneOne ctxSceneStep1) ∧
      (Scene.leave sceneOne ctxSceneStep1).session = [] ∧
      (Scene.leave sceneOne ctxSceneStep1).scene = none :=
  scene_exit_on_next_handle sceneOne ctxSceneStep1 (by decide)

/-- Claim C4: if the stored step index is in bounds, the invoked step
handler returns `false`, and the handler does not change the recorded step
index, then the step index in the session is the same after `Scene.handle`
returns as it was before — even when the event carried text (`handle`
performs no auto-increment on a `false` return). -/
theorem scene_step_false_keeps_index (sc : Scene) (ctx : Context) (n : Nat)
    (hn : n < sc.steps.length)
    (h1 : Session.get ctx.session "step" = some (JsVal.num n))
    (h2 : (sc.steps.get ⟨n, hn⟩ ctx).2 = JsRet.retFalse)
    (h3 : Session.get (sc.steps.get ⟨n, hn⟩ ctx).1.session "step" =
            some (JsVal.num n)) :
    ∃ c, Scene.handle sc ctx = some c ∧
      Session.get c.session "step" = Session.get ctx.session "step" := by
  have hstep : sessStep ctx.session = (n : Int) := by
    simp [sessStep, h1]
  simp only [List.get_eq_getElem] at h2 h3
  simp only [Scene.handle, Scene.handleT, hstep]
  rw [dif_pos (by exact_mod_cast hn), dif_pos (by positivity)]
  have htn : ((n : Int)).toNat = n := by omega
  simp only [htn]
  rw [if_neg (by simp [h2])]
  refine ⟨_, rfl, ?_⟩
  simp only [List.get_eq_getElem]
  rw [h3, h1]

theorem scene_step_false_keeps_index_witness :
    ∃ c, Scene.handle sceneFalse ctxStep0 = some c ∧
      Session.get c.session "step" = Session.get ctxStep0.session "step" :=
  scene_step_false_keeps_index sceneFalse ctxStep0 0 (by decide) (by decide)
    (by decide) (by decide)

/-- Claim C5: if the in-bounds step handler itself changes the recorded step
index away from the pre-call value and returns a non-`false` value,
`Scene.handle` performs no additional auto-increment: the context it returns
is exactly the handler's output, so the index is exactly the value the
handler set. -/
theorem scene_manual_change_no_double_advance (sc : Scene) (ctx : Context) (n : Nat)
    (hn : n < sc.steps.length)
    (h1 : Session.get ctx.session "step" = some (JsVal.num n))
    (h2 : (sc.steps.get ⟨n, hn⟩ ctx).2 ≠ JsRet.retFalse)
    (h3 : Session.get (sc.steps.get ⟨n, hn⟩ ctx).1.session "step" ≠
            some (JsVal.num n)) :
    Scene.handle sc ctx = some (sc.steps.get ⟨n, hn⟩ ctx).1 := by
  have hstep : sessStep ctx.session = (n : Int) := by
    simp [sessStep, h1]
  simp only [List.get_eq_getElem] at h2 h3 ⊢
  simp only [Scene.handle, Scene.handleT, hstep]
  rw [dif_pos (by exact_mod_cast hn), dif_pos (by positivity)]
  have htn : ((n : Int)).toNat = n := by omega
  simp only [htn]
  rw [if_neg (by simp [h3])]
  simp [List.get_eq_getElem]

theorem scene_manual_change_no_double_advance_witness :
    Scene.handle sceneSetStep ctxStep0 =
      some ((sceneSetStep.steps.get ⟨0, by decide⟩) ctxStep0).1 :=
  scene_manual_change_no_double_advance sceneSetStep ctxStep0 0 (by decide)
    (by decide) (by decide) (by decide)

/-! ## Session stores: claim C9 -/

theorem alGet_alSet_same {α : Type} (m : List (String × α)) (k : String) (v : α) :
    alGet (alSet m k v) k = some v := by
  induction m with
  | nil => simp [alGet, alSet]
  | cons p rest ih =>
    by_cases h : p.1 = k
    · simp [alSet, alGet, h]
    · simp [alSet, alGet, h, ih]

theorem alGet_alSet_ne {α : Type} (m : List (String × α)) (k k' : String) (v : α)
    (h : k' ≠ k) : alGet (alSet m k' v) k = alGet m k := by
  induction m with
  | nil => simp [alGet, alSet, h]
  | cons p rest ih =>
    by_cases hp : p.1 = k'
    · simp [alSet, alGet, hp, h]
    · simp only [alSet, hp, if_false]
      by_cases hk : p.1 = k
      · simp [alGet, hk]
      · simp [alGet, hk, ih]

theorem alGet_filter_none {α : Type} (m : List (String × α)) (k : String)
    (f : String × α → Bool) (h : alGet m k = none) :
    alGet (m.filter f) k = none := by
  induction m with
  | nil => simp [alGet]
  | cons p rest ih =>
    simp only [alGet] at h
    by_cases hk : p.1 = k
    · simp [hk] at h
    · rw [List.filter_cons]
      have hrest := ih (by simpa [hk] using h)
      by_cases hf : f p
      · simp [hf, alGet, hk, hrest]
      · simp [hf, hrest]

theorem applyOpsMem_unwritten (ops : List StoreOp) (st : Store) (id : String)
    (hst : alGet st id = none) (h : ∀ s, StoreOp.setOp id s ∉ ops) :
    alGet (applyOpsMem ops st) id = none := by
  induction ops generalizing st with
  | nil => exact hst
  | cons op rest ih =>
    have hrest : ∀ s, StoreOp.setOp id s ∉ rest := fun s hs =>
      h s (List.mem_cons_of_mem _ hs)
    cases op with
    | setOp id' s =>
      have hne : id' ≠ id := by
        intro he
        exact h s (by rw [he]; exact List.mem_cons_self _ _)
      exact ih _ (by rw [applyOpMem, memSet, alGet_alSet_ne _ _ _ _ hne]; exact hst) hrest
    | clearOp id' =>
      exact ih _ (alGet_filter_none _ _ _ hst) hrest

theorem applyOpsFile_unwritten (ops : List StoreOp) (f : FsFile) (id : String)
    (hst : alGet (readSessions f) id = none) (h : ∀ s, StoreOp.setOp id s ∉ ops) :
    alGet (readSessions (applyOpsFile ops f)) id = none := by
  induction ops generalizing f with
  | nil => exact hst
  | cons op rest ih =>
    have hrest : ∀ s, StoreOp.setOp id s ∉ rest := fun s hs =>
      h s (List.mem_cons_of_mem _ hs)
    cases op with
    | setOp id' s =>
      have hne : id' ≠ id := by
        intro he
        exact h s (by rw [he]; exact List.mem_cons_self _ _)
      exact ih _ (by rw [applyOpFile, fileSet, readSessions,
        alGet_alSet_ne _ _ _ _ hne]; exact hst) hrest
    | clearOp id' =>
      exact ih _ (alGet_filter_none _ _ _ hst) hrest

/-- Claim C9: for both session store implementations (the in-memory store and
the file-backed store), `get` on an identifier that was never written returns
the empty mapping — after any sequence of `set`/`clear` operations on other
identifiers (and even `clear` on this identifier), starting from a fresh
store. The file-backed store also returns the empty mapping when the
sessions file is unparseable (the parse error is caught), so no lookup ever
surfaces an error. -/
theorem store_get_unknown_returns_empty (ops : List StoreOp) (id : String)
    (h : ∀ s, StoreOp.setOp id s ∉ ops) :
    memGet (applyOpsMem ops []) id = [] ∧
    fileGet (applyOpsFile ops FsFile.absent) id = [] ∧
    fileGet FsFile.corrupt id = [] := by
  refine ⟨?_, ?_, rfl⟩
  · rw [memGet, applyOpsMem_unwritten ops [] id (by rfl) h]
    rfl
  · rw [fileGet, applyOpsFile_unwritten ops FsFile.absent id (by rfl) h]
    rfl

theorem store_get_unknown_returns_empty_witness :
    memGet (applyOpsMem [StoreOp.setOp "a" [("x", JsVal.num 1)], StoreOp.clearOp "u"] []) "u" = [] ∧
    fileGet (applyOpsFile [StoreOp.setOp "a" [("x", JsVal.num 1)], StoreOp.clearOp "u"] FsFile.absent) "u" = [] ∧
    fileGet FsFile.corrupt "u" = [] :=
  store_get_unknown_returns_empty _ "u" (by intro s hs; simp at hs)

/-! ## Scene manager middleware: claim C8 -/

/-- Claim C8: whenever the scene manager's interceptor completes (either by
resuming the active scene's `handle` or by running the `next` continuation),
its final action is an unconditional `set`: the returned store maps the
derived user id to exactly the final context's session. -/
theorem sceneManager_middleware_persists (scenes : SceneMap)
    (next : Store × Context → Option (Store × Context))
    (store : Store) (ctx : Context) (store' : Store) (ctx' : Context)
    (h : SceneManager.middlewareRun scenes next (store, ctx) = some (store', ctx')) :
    alGet store' (derivedId ctx) = some ctx'.session ∧
      ∃ mid : Store, store' = memSet mid (derivedId ctx) ctx'.session := by
  simp only [SceneManager.middlewareRun] at h
  split at h
  · rename_i sc hsc
    split at h
    · split at h
      · rename_i q hq
        obtain ⟨h1, h2⟩ := Prod.mk.injEq .. ▸ (Option.some.injEq .. ▸ h)
        subst h1
        subst h2
        exact ⟨alGet_alSet_same _ _ _, _, rfl⟩
      · exact absurd h (by simp)
    · split at h
      · obtain ⟨h1, h2⟩ := Prod.mk.injEq .. ▸ (Option.some.injEq .. ▸ h)
        subst h1
        subst h2
        exact ⟨alGet_alSet_same _ _ _, _, rfl⟩
      · exact absurd h (by simp)
  · split at h
    · obtain ⟨h1, h2⟩ := Prod.mk.injEq .. ▸ (Option.some.injEq .. ▸ h)
      subst h1
      subst h2
      exact ⟨alGet_alSet_same _ _ _, _, rfl⟩
    · exact absurd h (by simp)

theorem sceneManager_middleware_persists_witness :
    alGet (memSet [] "u" []) (derivedId ctxEmpty) = some ctxEmpty.session ∧
      ∃ mid : Store, memSet [] "u" [] = memSet mid (derivedId ctxEmpty) ctxEmpty.session :=
  sceneManager_middleware_persists [] nextId [] ctxEmpty (memSet [] "u" []) ctxEmpty rfl

/-! ## Handler dispatch: claim C1 -/

theorem dispatchLoop_handled_skips (hs : List (Context → Context × JsRet))
    (ctx : Context) (k : Nat) :
    dispatchLoop hs ctx true k = ⟨ctx, true, []⟩ := by
  induction hs generalizing k with
  | nil => rfl
  | cons f rest ih => simp [dispatchLoop, ih]

theorem dispatchLoop_all_run (hs : List (Context → Context × JsRet)) :
    ∀ (ctx : Context) (k : Nat),
      (dispatchLoop hs ctx false k).handled = false →
      (dispatchLoop hs ctx false k).invoked = List.range' k hs.length := by
  induction hs with
  | nil => intro ctx k _; rfl
  | cons f rest ih =>
    intro ctx k hnot
    simp only [dispatchLoop, if_neg Bool.false_ne_true] at hnot ⊢
    by_cases htrue : (f ctx).2 = JsRet.retTrue
    · simp only [htrue, if_pos] at hnot
      rw [dispatchLoop_handled_skips] at hnot
      simp at hnot
    · simp only [if_neg htrue] at hnot ⊢
      rw [ih _ _ hnot]
      rfl

/-- Counterexample to claim C1 as stated: with `hears("hi")` registered
before `on('message', logFn)`, the inbound message `"hi there"` matches the
`hears` pattern, its wrapper returns `true`, and the dispatch loop's
`handled` flag then skips `logFn`: only handler 0 is invoked, the `heard`
marker is set and the `logged` marker is not — `logFn` does not run, contrary
to the claim that both callbacks fire. -/
theorem generic_handler_always_runs_cex :
    (processEvent botHearsLog evHiThere).map
        (fun o => (o.msgRan, Session.get o.ctx.session "heard",
                   Session.get o.ctx.session "logged")) =
      some ([0], some (JsVal.num 1), none) := by
  decide

/-- Claim C1 (amended): a generic `on('message', ...)` handler is invoked
exactly as long as no earlier handler invocation in the pass has returned
strict `true`; when no handler returns `true`, every registered message
handler runs. A matched `hears` wrapper returns `true`, so in the scenario
`hears("hi")` plus `on('message', logFn)` on text `"hi there"`, the `hears`
callback fires and `logFn` is skipped. -/
theorem generic_handlers_run_until_true :
    (∀ (hs : List (Context → Context × JsRet)) (ctx : Context),
        (dispatchLoop hs ctx false 0).handled = false →
        (dispatchLoop hs ctx false 0).invoked = List.range hs.length) ∧
    (processEvent botHearsLog evHiThere).map
        (fun o => (Session.get o.ctx.session "heard",
                   Session.get o.ctx.session "logged")) =
      some (some (JsVal.num 1), none) := by
  constructor
  · intro hs ctx h
    rw [dispatchLoop_all_run hs ctx 0 h, List.range_eq_range']
  · decide

theorem generic_handlers_run_until_true_witness :
    (dispatchLoop [fun c => (c, JsRet.retOther), fun c => (c, JsRet.retOther)]
        ctxEmpty false 0).invoked = List.range 2 :=
  generic_handlers_run_until_true.1 _ ctxEmpty (by decide)

/-! ## Middleware short-circuiting: claim C2 -/

/-- Between two runner states, the trace grew only by `ran` events of index
at most `j`. -/
def RansLE (j : Nat) (s s' : MwState) : Prop :=
  ∃ Δ, s'.trace = s.trace ++ Δ ∧ ∀ k, MwEv.ran k ∈ Δ → k ≤ j

theorem ransLE_self (j : Nat) (s : MwState) : RansLE j s s :=
  ⟨[], by simp, by simp⟩

theorem RansLE.trans {j : Nat} {s s₂ s₃ : MwState}
    (h1 : RansLE j s s₂) (h2 : RansLE j s₂ s₃) : RansLE j s s₃ := by
  obtain ⟨d1, ht1, hr1⟩ := h1
  obtain ⟨d2, ht2, hr2⟩ := h2
  refine ⟨d1 ++ d2, by rw [ht2, ht1, List.append_assoc], ?_⟩
  intro k hk
  rcases List.mem_append.mp hk with h | h
  · exact hr1 k h
  · exact hr2 k h

theorem RansLE.of_trace_eq {j : Nat} {s s' : MwState}
    (h : s'.trace = s.trace) : RansLE j s s' :=
  ⟨[], by simp [h], by simp⟩

theorem execActs_ranLE (j i : Nat) (cn : MwState → MwOut)
    (acts : List MwAct)
    (h : (∀ s₀, RansLE j s₀ (cn s₀).state) ∨ (∀ a ∈ acts, a ≠ MwAct.next)) :
    ∀ s, RansLE j s (execActs i cn acts s).state := by
  induction acts with
  | nil => intro s; exact ransLE_self j s
  | cons a rest ih =>
    intro s
    have hrest : (∀ s₀, RansLE j s₀ (cn s₀).state) ∨ (∀ a ∈ rest, a ≠ MwAct.next) := by
      rcases h with h | h
      · exact Or.inl h
      · exact Or.inr (fun a ha => h a (List.mem_cons_of_mem _ ha))
    cases a with
    | next =>
      rcases h with h | h
      · simp only [execActs]
        cases hcall : cn s with
        | ok s₂ =>
          have h1 : RansLE j s s₂ := by
            have := h s
            rw [hcall] at this
            exact this
          exact h1.trans (ih hrest s₂)
        | err e s₂ =>
          have h1 : RansLE j s s₂ := by
            have := h s
            rw [hcall] at this
            exact this
          exact h1
      · exact absurd rfl (h MwAct.next (List.mem_cons_self _ _))
    | modifyCtx f =>
      simp only [execActs]
      exact (RansLE.of_trace_eq rfl).trans (ih hrest _)
    | throwErr e =>
      simp only [execActs, MwOut.state]
      exact ⟨[MwEv.threw i e], rfl, by simp⟩

theorem mwRunner_ranLE (bot : MessengerBot) (j : Nat)
    (hj : j < bot.middlewares.length)
    (hnn : ∀ a ∈ bot.middlewares.get ⟨j, hj⟩, a ≠ MwAct.next)
    (fuel : Nat) :
    ∀ i s, i ≤ j → RansLE j s (mwRunner bot fuel i s).state := by
  induction fuel with
  | zero =>
    intro i s _
    simp only [mwRunner]
    split
    · exact ransLE_self j s
    · split
      · exact RansLE.of_trace_eq rfl
      · exact RansLE.of_trace_eq rfl
  | succ fuel ih =>
    intro i s hij
    simp only [mwRunner]
    split
    · exact ransLE_self j s
    · split
      · rename_i hle hi
        have hstep1 : RansLE j s
            { s with index := (i : Int), trace := s.trace ++ [MwEv.ran i] } :=
          ⟨[MwEv.ran i], rfl, by simpa using hij⟩
        have hexec : (∀ s₀, RansLE j s₀ ((fun st => mwRunner bot fuel (i + 1) st) s₀).state) ∨
            (∀ a ∈ bot.middlewares.get ⟨i, hi⟩, a ≠ MwAct.next) := by
          by_cases hieq : i = j
          · subst hieq
            exact Or.inr hnn
          · exact Or.inl (fun s₀ => ih (i + 1) s₀ (by omega))
        have hmain := execActs_ranLE j i _ _ hexec
            { s with index := (i : Int), trace := s.trace ++ [MwEv.ran i] }
        split
        · rename_i s3 hs3
          rw [hs3, MwOut.state] at hmain
          exact hstep1.trans hmain
        · rename_i e s3 hs3
          rw [hs3, MwOut.state] at hmain
          split
          · exact (hstep1.trans hmain).trans ⟨[MwEv.handled i e], rfl, by simp⟩
          · exact hstep1.trans hmain
      · exact RansLE.of_trace_eq rfl

/-- Counterexample to claim C2 as stated: `botNoNext` has one middleware that
never calls its `next` continuation, yet processing a text message still
dispatches the generic message handler — the handler record is `[0]` and the
handler's session marker is set. Omitting `next` does stop later middleware,
but it does not prevent handler dispatch, because the webhook handler runs
the dispatch loops unconditionally after `runMiddlewares` returns. -/
theorem mw_skip_next_stops_dispatch_cex :
    (processEvent botNoNext evX).map
        (fun o => (o.mwTrace, o.msgRan, Session.get o.ctx.session "ran")) =
      some ([MwEv.ran 0], [0], some (JsVal.num 1)) := by
  decide

theorem processEvent_mwTrace (bot : MessengerBot) (ev : Event) (out : ProcOut)
    (h : processEvent bot ev = some out) :
    out.mwTrace =
      (runMiddlewares bot
        { mkContext ev with session := memGet bot.store ev.senderId }).state.trace := by
  simp only [processEvent] at h
  split at h
  · exact absurd h (by simp)
  · split at h
    · rename_i e st hrun
      rw [hrun]
      obtain rfl := (Option.some.injEq .. ▸ h).symm
      rfl
    · rename_i st hrun
      rw [hrun]
      obtain rfl := (Option.some.injEq .. ▸ h).symm
      rfl

/-- Claim C2 (amended): a middleware that never invokes its `next`
continuation short-circuits all later interceptors — no middleware with a
larger index ever starts for that event — but it does not short-circuit
handler dispatch: the webhook handler dispatches unconditionally after the
chain returns, so when the chain completes without an uncaught error and the
event carries truthy message text, the first registered message handler
still runs. -/
theorem mw_no_next_blocks_later_only :
    (∀ (bot : MessengerBot) (ev : Event) (j : Nat)
        (hj : j < bot.middlewares.length),
        (∀ a ∈ bot.middlewares.get ⟨j, hj⟩, a ≠ MwAct.next) →
        ∀ out, processEvent bot ev = some out →
          ∀ k, j < k → MwEv.ran k ∉ out.mwTrace) ∧
    (∀ (bot : MessengerBot) (ev : Event) (out : ProcOut) (t : String),
        processEvent bot ev = some out → out.uncaught = none →
        ev.messageText = some t → t ≠ "" → bot.messageHandlers ≠ [] →
        out.msgRan.head? = some 0) := by
  constructor
  · intro bot ev j hj hnn out hout k hjk hkmem
    rw [processEvent_mwTrace bot ev out hout] at hkmem
    obtain ⟨d, hd, hr⟩ := mwRunner_ranLE bot j hj hnn bot.middlewares.length 0
      { ctx := { mkContext ev with session := memGet bot.store ev.senderId },
        index := -1, trace := [] } (by omega)
    rw [runMiddlewares] at hkmem
    rw [hd] at hkmem
    simp only [List.nil_append] at hkmem
    exact absurd (hr k hkmem) (by omega)
  · intro bot ev out t hout hunc hmt hne hhs
    simp only [processEvent] at hout
    split at hout
    · exact absurd hout (by simp)
    · split at hout
      · obtain rfl := (Option.some.injEq .. ▸ hout).symm
        exact absurd hunc (by simp)
      · obtain rfl := (Option.some.injEq .. ▸ hout).symm
        cases hq : bot.messageHandlers with
        | nil => exact absurd hq hhs
        | cons f rest =>
          simp [hmt, hne, dispatchLoop]

theorem mw_no_next_blocks_later_only_witness :
    MwEv.ran 1 ∉ outNoNext.mwTrace ∧ outNoNext.msgRan.head? = some 0 :=
  ⟨mw_no_next_blocks_later_only.1 botNoNext evX 0 (by decide)
      (by intro a ha; exact absurd ha (List.not_mem_nil a)) outNoNext (by decide)
      1 (by decide),
   mw_no_next_blocks_later_only.2 botNoNext evX outNoNext "x" (by decide) rfl rfl
      (by decide) (List.cons_ne_nil _ _)⟩

/-! ## Middleware runner invariants: claims C6 and C7 -/

/-- Number of `ran k` events in a trace. -/
def countRan (k : Nat) : List MwEv → Nat
  | [] => 0
  | MwEv.ran j :: rest => (if j = k then 1 else 0) + countRan k rest
  | _ :: rest => countRan k rest

/-- No `ran` event occurs in the trace. -/
def ranFreeL (T : List MwEv) : Prop := ∀ k : Nat, MwEv.ran k ∉ T

/-- No `threw` event occurs in the trace. -/
def threwFreeL (T : List MwEv) : Prop := ∀ (k : Nat) (e : String), MwEv.threw k e ∉ T

/-- Every `threw` event in the trace has a matching `handled` event. -/
def balancedL (T : List MwEv) : Prop :=
  ∀ (k : Nat) (e : String), MwEv.threw k e ∈ T → MwEv.handled k e ∈ T

/-- After the first `threw` event of the trace, no middleware starts: the
rest of the trace contains no `ran` event. -/
def sinceThrewRanFree : List MwEv → Prop
  | [] => True
  | MwEv.threw _ _ :: rest => ranFreeL rest
  | _ :: rest => sinceThrewRanFree rest

theorem countRan_append (k : Nat) (A B : List MwEv) :
    countRan k (A ++ B) = countRan k A + countRan k B := by
  induction A with
  | nil => simp [countRan]
  | cons a rest ih =>
    cases a with
    | ran j => simp [countRan, ih]; omega
    | threw j e => simp [countRan, ih]
    | handled j e => simp [countRan, ih]

theorem countRan_eq_zero (k : Nat) (T : List MwEv) :
    countRan k T = 0 ↔ MwEv.ran k ∉ T := by
  induction T with
  | nil => simp [countRan]
  | cons a rest ih =>
    cases a with
    | ran j =>
      by_cases hj : j = k
      · subst hj
        simp [countRan, List.mem_cons]
      · simp [countRan, hj, ih, List.mem_cons, Ne.symm hj]
    | threw j e => simp [countRan, ih, List.mem_cons]
    | handled j e => simp [countRan, ih, List.mem_cons]

theorem ranFreeL_append {A B : List MwEv} (hA : ranFreeL A) (hB : ranFreeL B) :
    ranFreeL (A ++ B) := by
  intro k hk
  rcases List.mem_append.mp hk with h | h
  · exact hA k h
  · exact hB k h

theorem threwFreeL_append {A B : List MwEv} (hA : threwFreeL A) (hB : threwFreeL B) :
    threwFreeL (A ++ B) := by
  intro k e hk
  rcases List.mem_append.mp hk with h | h
  · exact hA k e h
  · exact hB k e h

theorem balancedL_append {A B : List MwEv} (hA : balancedL A) (hB : balancedL B) :
    balancedL (A ++ B) := by
  intro k e hk
  rcases List.mem_append.mp hk with h | h
  · exact List.mem_append.mpr (Or.inl (hA k e h))
  · exact List.mem_append.mpr (Or.inr (hB k e h))

theorem sinceThrewRanFree_of_ranFree {T : List MwEv} (h : ranFreeL T) :
    sinceThrewRanFree T := by
  induction T with
  | nil => trivial
  | cons a rest ih =>
    have hrest : ranFreeL rest := fun k hk => h k (List.mem_cons_of_mem _ hk)
    cases a with
    | ran j => exact absurd (List.mem_cons_self _ _) (h j)
    | threw j e => exact hrest
    | handled j e => exact ih hrest

theorem sinceThrewRanFree_append_ranFree {A B : List MwEv}
    (hA : sinceThrewRanFree A) (hB : ranFreeL B) :
    sinceThrewRanFree (A ++ B) := by
  induction A with
  | nil => exact sinceThrewRanFree_of_ranFree hB
  | cons a rest ih =>
    cases a with
    | ran j => exact ih hA
    | threw j e => exact ranFreeL_append hA hB
    | handled j e => exact ih hA

theorem sinceThrewRanFree_append_of_threwFree {A B : List MwEv}
    (hA : threwFreeL A) (hB : sinceThrewRanFree B) :
    sinceThrewRanFree (A ++ B) := by
  induction A with
  | nil => exact hB
  | cons a rest ih =>
    have hrest : threwFreeL rest := fun k e hk => hA k e (List.mem_cons_of_mem _ hk)
    cases a with
    | ran j => exact ih hrest
    | threw j e => exact absurd (List.mem_cons_self _ _) (hA j e)
    | handled j e => exact ih hrest

/-- Common postcondition of one (partial) run of the chain from state `s` to
state `s'`, appending the events `Δ`: the trace grew by exactly `Δ`, the
guard `index` is monotone, every middleware start recorded in `Δ` was of an
index above the initial guard and at most the final guard, no middleware
start is recorded twice, and no middleware start occurs after a throw. -/
structure MwPost (s s' : MwState) (Δ : List MwEv) : Prop where
  traceEq : s'.trace = s.trace ++ Δ
  mono : s.index ≤ s'.index
  ranHi : ∀ k : Nat, MwEv.ran k ∈ Δ → s.index < (k : Int) ∧ (k : Int) ≤ s'.index
  ranOnce : ∀ k : Nat, countRan k Δ ≤ 1
  orderly : sinceThrewRanFree Δ

theorem mwPost_nil (s : MwState) : MwPost s s [] := by
  refine ⟨by simp, le_refl _, by simp, ?_, trivial⟩
  intro k
  simp [countRan]

/-- Compose two postconditions when the second leg records no middleware
start (which is the case for every leg that follows an effective `next`). -/
theorem MwPost.trans_ranFree {s s₂ s₃ : MwState} {Δ₁ Δ₂ : List MwEv}
    (h1 : MwPost s s₂ Δ₁) (h2 : MwPost s₂ s₃ Δ₂) (hrf : ranFreeL Δ₂) :
    MwPost s s₃ (Δ₁ ++ Δ₂) := by
  refine ⟨?_, le_trans h1.mono h2.mono, ?_, ?_, ?_⟩
  · rw [h2.traceEq, h1.traceEq, List.append_assoc]
  · intro k hk
    rcases List.mem_append.mp hk with h | h
    · exact ⟨(h1.ranHi k h).1, le_trans (h1.ranHi k h).2 h2.mono⟩
    · exact absurd h (hrf k)
  · intro k
    rw [countRan_append]
    have h2z : countRan k Δ₂ = 0 := (countRan_eq_zero k Δ₂).mpr (hrf k)
    have := h1.ranOnce k
    omega
  · exact sinceThrewRanFree_append_ranFree h1.orderly hrf

/-- Prepend the `ran i` event that `mwRunner` records before executing
middleware `i`'s body. `s₂` is the state the body starts from. -/
theorem MwPost.consRan {s s₂ s₃ : MwState} {Δ : List MwEv} {i : Nat}
    (hpost : MwPost s₂ s₃ Δ) (hidx : s₂.index = (i : Int))
    (htr : s₂.trace = s.trace ++ [MwEv.ran i]) (hlo : s.index < (i : Int)) :
    MwPost s s₃ (MwEv.ran i :: Δ) := by
  refine ⟨?_, ?_, ?_, ?_, ?_⟩
  · rw [hpost.traceEq, htr]
    simp
  · have := hpost.mono
    omega
  · intro k hk
    rcases List.mem_cons.mp hk with h | h
    · obtain rfl : i = k := by injection h with h'; omega
      have := hpost.mono
      constructor
      · exact hlo
      · omega
    · have := hpost.ranHi k h
      constructor
      · omega
      · exact this.2
  · intro k
    show (if i = k then 1 else 0) + countRan k Δ ≤ 1
    by_cases hik : i = k
    · subst hik
      have hz : countRan i Δ = 0 := by
        rw [countRan_eq_zero]
        intro hmem
        have := hpost.ranHi i hmem
        omega
      simp [hz]
    · have := hpost.ranOnce k
      simp [hik]
      omega
  · exact hpost.orderly

/-- Postcondition of a completed `mwRunner bot fuel i s = ok s'`. -/
def RunnerOk (eh : Option (String → Context → Context)) (i : Nat)
    (s s' : MwState) : Prop :=
  ∃ Δ, MwPost s s' Δ ∧ (i : Int) ≤ s'.index ∧
    (eh = none → threwFreeL Δ) ∧ (eh ≠ none → balancedL Δ)

/-- Postcondition of `mwRunner bot fuel i s = err e s'`: only possible with
no error handler registered, and the trace ends exactly at the throw. -/
def RunnerErr (eh : Option (String → Context → Context)) (i : Nat)
    (s : MwState) (e : String) (s' : MwState) : Prop :=
  eh = none ∧ ∃ Δ₀ k, MwPost s s' (Δ₀ ++ [MwEv.threw k e]) ∧
    (i : Int) ≤ s'.index ∧ threwFreeL Δ₀

/-- Postcondition of `execActs i cn acts s = ok s'`. The last conjunct: when
the guard already covers level `i + 1` at entry, the body can start no
middleware at all. -/
def ExecOk (eh : Option (String → Context → Context)) (i : Nat)
    (s s' : MwState) : Prop :=
  ∃ Δ, MwPost s s' Δ ∧
    (eh = none → threwFreeL Δ) ∧ (eh ≠ none → balancedL Δ) ∧
    ((i : Int) + 1 ≤ s.index → ranFreeL Δ)

/-- Postcondition of `execActs i cn acts s = err e s'`: the trace ends at
the throw; with an error handler registered the propagated throw is the
body's own (`k = i`), since nested runner errors are impossible then. -/
def ExecErr (eh : Option (String → Context → Context)) (i : Nat)
    (s : MwState) (e : String) (s' : MwState) : Prop :=
  ∃ Δ₀ k, MwPost s s' (Δ₀ ++ [MwEv.threw k e]) ∧
    (eh = none → threwFreeL Δ₀) ∧ (eh ≠ none → balancedL Δ₀ ∧ k = i) ∧
    ((i : Int) + 1 ≤ s.index → ranFreeL (Δ₀ ++ [MwEv.threw k e]))

/-- What `execActs` may assume of the continuation it is given (satisfied
by `mwRunner bot fuel (i + 1)`): re-invocation past the guard is a no-op,
and completed or failed calls satisfy the runner postconditions. -/
def CNspec (eh : Option (String → Context → Context)) (i : Nat)
    (cn : MwState → MwOut) : Prop :=
  (∀ s, ((i : Int) + 1 ≤ s.index) → cn s = MwOut.ok s) ∧
  (∀ s s', cn s = MwOut.ok s' → RunnerOk eh (i + 1) s s') ∧
  (∀ s e s', cn s = MwOut.err e s' → RunnerErr eh (i + 1) s e s')

theorem execActs_inv (eh : Option (String → Context → Context)) (i : Nat)
    (cn : MwState → MwOut) (hcn : CNspec eh i cn) :
    ∀ (acts : List MwAct) (s : MwState),
      (∀ s', execActs i cn acts s = MwOut.ok s' → ExecOk eh i s s') ∧
      (∀ e s', execActs i cn acts s = MwOut.err e s' → ExecErr eh i s e s') := by
  intro acts
  induction acts with
  | nil =>
    intro s
    constructor
    · intro s' h
      obtain rfl : s = s' := by injection h
      exact ⟨[], mwPost_nil s, fun _ => (fun k e hk => by cases hk),
        fun _ => (fun k e hk => by cases hk), fun _ => (fun k hk => by cases hk)⟩
    · intro e s' h
      exact MwOut.noConfusion h
  | cons a rest ih =>
    intro s
    cases a with
    | next =>
      simp only [execActs]
      cases hcall : cn s with
      | ok s₂ =>
        obtain ⟨Δ₁, hp1, hidx1, htf1, hbal1⟩ := hcn.2.1 s s₂ hcall
        have hidx1' : (i : Int) + 1 ≤ s₂.index := by
          have := hidx1
          push_cast at this
          omega
        have hΔ₁nil : (i : Int) + 1 ≤ s.index → Δ₁ = [] := by
          intro hc
          have hnoop := hcn.1 s hc
          rw [hcall] at hnoop
          obtain rfl : s₂ = s := by injection hnoop
          have hlen := congrArg List.length hp1.traceEq
          simp at hlen
          exact hlen
        constructor
        · intro s' h
          obtain ⟨Δ₂, hp2, htf2, hbal2, hrf2⟩ := (ih s₂).1 s' h
          have hrf2' : ranFreeL Δ₂ := hrf2 hidx1'
          refine ⟨Δ₁ ++ Δ₂, MwPost.trans_ranFree hp1 hp2 hrf2', ?_, ?_, ?_⟩
          · intro hn
            exact threwFreeL_append (htf1 hn) (htf2 hn)
          · intro hn
            exact balancedL_append (hbal1 hn) (hbal2 hn)
          · intro hc
            rw [hΔ₁nil hc]
            simpa using hrf2'
        · intro e s' h
          obtain ⟨Δ₀, k, hp2, htf2, hbal2, hrf2⟩ := (ih s₂).2 e s' h
          have hrf2' : ranFreeL (Δ₀ ++ [MwEv.threw k e]) := hrf2 hidx1'
          refine ⟨Δ₁ ++ Δ₀, k, ?_, ?_, ?_, ?_⟩
          · have := MwPost.trans_ranFree hp1 hp2 hrf2'
            rwa [← List.append_assoc] at this
          · intro hn
            exact threwFreeL_append (htf1 hn) (htf2 hn)
          · intro hn
            exact ⟨balancedL_append (hbal1 hn) ((hbal2 hn).1), (hbal2 hn).2⟩
          · intro hc
            rw [List.append_assoc, hΔ₁nil hc]
            simpa using hrf2'
      | err e s₂ =>
        obtain ⟨hehn, Δ₀, k, hp, hidx, htf⟩ := hcn.2.2 s e s₂ hcall
        constructor
        · intro s' h
          exact MwOut.noConfusion h
        · intro e' s' h
          obtain ⟨rfl, rfl⟩ : e = e' ∧ s₂ = s' := by
            refine ⟨?_, ?_⟩ <;> injection h
          refine ⟨Δ₀, k, hp, fun _ => htf, fun hn => absurd hehn hn, ?_⟩
          · intro hc
            have hnoop := hcn.1 s hc
            rw [hcall] at hnoop
            exact MwOut.noConfusion hnoop
    | modifyCtx f =>
      simp only [execActs]
      constructor
      · intro s' h
        obtain ⟨Δ, hp, htf, hbal, hrf⟩ := (ih { s with ctx := f s.ctx }).1 s' h
        exact ⟨Δ, ⟨hp.traceEq, hp.mono, hp.ranHi, hp.ranOnce, hp.orderly⟩,
          htf, hbal, fun hc => hrf hc⟩
      · intro e s' h
        obtain ⟨Δ₀, k, hp, htf, hbal, hrf⟩ := (ih { s with ctx := f s.ctx }).2 e s' h
        exact ⟨Δ₀, k, ⟨hp.traceEq, hp.mono, hp.ranHi, hp.ranOnce, hp.orderly⟩,
          htf, hbal, fun hc => hrf hc⟩
    | throwErr e =>
      simp only [execActs]
      constructor
      · intro s' h
        exact MwOut.noConfusion h
      · intro e' s' h
        obtain ⟨rfl, rfl⟩ : e = e' ∧
            ({ s with trace := s.trace ++ [MwEv.threw i e] } : MwState) = s' := by
          refine ⟨?_, ?_⟩ <;> injection h
        refine ⟨[], i, ?_, ?_, ?_, ?_⟩
        · refine ⟨by simp, le_refl _, ?_, ?_, ?_⟩
          · intro k hk
            simp at hk
          · intro k
            simp [countRan]
          · show sinceThrewRanFree ([] ++ [MwEv.threw i e])
            intro k hk
            cases hk
        · intro _ k e' hk
          cases hk
        · intro _
          constructor
          · intro k e' hk
            cases hk
          · rfl
        · intro _ k hk
          simp at hk

theorem threwFreeL_nil : threwFreeL [] := fun _ _ hk => by cases hk

theorem balancedL_nil : balancedL [] := fun _ _ hk => by cases hk

theorem threwFreeL_cons_ran {Δ : List MwEv} (i : Nat) (h : threwFreeL Δ) :
    threwFreeL (MwEv.ran i :: Δ) := by
  intro k e hk
  rcases List.mem_cons.mp hk with h' | h'
  · exact MwEv.noConfusion h'
  · exact h k e h'

theorem balancedL_cons_ran {Δ : List MwEv} (i : Nat) (h : balancedL Δ) :
    balancedL (MwEv.ran i :: Δ) := by
  intro k e hk
  rcases List.mem_cons.mp hk with h' | h'
  · exact MwEv.noConfusion h'
  · exact List.mem_cons_of_mem _ (h k e h')

theorem balancedL_handled_close {Δ₀ : List MwEv} (i : Nat) (e : String)
    (h : balancedL Δ₀) : balancedL (Δ₀ ++ [MwEv.threw i e] ++ [MwEv.handled i e]) := by
  intro k' e' hk
  rcases List.mem_append.mp hk with h1 | h1
  · rcases List.mem_append.mp h1 with h2 | h2
    · exact List.mem_append.mpr (Or.inl (List.mem_append.mpr (Or.inl (h k' e' h2))))
    · simp only [List.mem_singleton, MwEv.threw.injEq] at h2
      obtain ⟨rfl, rfl⟩ := h2
      exact List.mem_append.mpr (Or.inr (by simp))
  · simp at h1

theorem RunnerOk.noop (eh : Option (String → Context → Context)) (i : Nat)
    (s : MwState) (h : (i : Int) ≤ s.index) : RunnerOk eh i s s :=
  ⟨[], mwPost_nil s, h, fun _ => threwFreeL_nil, fun _ => balancedL_nil⟩

theorem RunnerOk.setIndex (eh : Option (String → Context → Context)) (i : Nat)
    (s : MwState) (h : s.index < (i : Int)) :
    RunnerOk eh i s { s with index := (i : Int) } := by
  refine ⟨[], ⟨by simp, by simp; omega, ?_, ?_, trivial⟩, le_refl _,
    fun _ => threwFreeL_nil, fun _ => balancedL_nil⟩
  · intro k hk
    cases hk
  · intro k
    simp [countRan]

theorem MwPost.handledStep (s3 : MwState) (c : Context) (i : Nat) (e : String) :
    MwPost s3 { s3 with ctx := c, trace := s3.trace ++ [MwEv.handled i e] }
      [MwEv.handled i e] := by
  refine ⟨by simp, le_refl _, ?_, ?_, trivial⟩
  · intro k hk
    simp at hk
  · intro k
    simp [countRan]

theorem mwRunner_noop (bot : MessengerBot) (fuel i : Nat) (s : MwState)
    (h : (i : Int) ≤ s.index) : mwRunner bot fuel i s = MwOut.ok s := by
  cases fuel <;> simp only [mwRunner, if_pos h]

theorem mwRunner_inv (bot : MessengerBot) (fuel : Nat) :
    ∀ (i : Nat) (s : MwState), bot.middlewares.length ≤ fuel + i →
      (∀ s', mwRunner bot fuel i s = MwOut.ok s' →
          RunnerOk bot.errorHandler i s s') ∧
      (∀ e s', mwRunner bot fuel i s = MwOut.err e s' →
          RunnerErr bot.errorHandler i s e s') := by
  induction fuel with
  | zero =>
    intro i s hL
    simp only [mwRunner]
    by_cases hle : (i : Int) ≤ s.index
    · rw [if_pos hle]
      constructor
      · intro s' h
        obtain rfl : s = s' := by injection h
        exact RunnerOk.noop _ i s hle
      · intro e s' h
        exact MwOut.noConfusion h
    · rw [if_neg hle, if_neg (by omega)]
      constructor
      · intro s' h
        obtain rfl : ({ s with index := (i : Int) } : MwState) = s' := by injection h
        exact RunnerOk.setIndex _ i s (by omega)
      · intro e s' h
        exact MwOut.noConfusion h
  | succ fuel ih =>
    intro i s hL
    simp only [mwRunner]
    by_cases hle : (i : Int) ≤ s.index
    · rw [if_pos hle]
      constructor
      · intro s' h
        obtain rfl : s = s' := by injection h
        exact RunnerOk.noop _ i s hle
      · intro e s' h
        exact MwOut.noConfusion h
    · rw [if_neg hle]
      by_cases hi : i < bot.middlewares.length
      · rw [dif_pos hi]
        have hcn : CNspec bot.errorHandler i (fun st => mwRunner bot fuel (i + 1) st) := by
          refine ⟨?_, ?_, ?_⟩
          · intro s₀ hc
            exact mwRunner_noop bot fuel (i + 1) s₀ (by push_cast; omega)
          · intro s₀ s₀' h
            exact (ih (i + 1) s₀ (by omega)).1 s₀' h
          · intro s₀ e s₀' h
            exact (ih (i + 1) s₀ (by omega)).2 e s₀' h
        have hex := execActs_inv bot.errorHandler i _ hcn (bot.middlewares.get ⟨i, hi⟩)
          { s with index := (i : Int), trace := s.trace ++ [MwEv.ran i] }
        constructor
        · intro s' hrun
          split at hrun
          · rename_i s3 heq
            obtain rfl : s3 = s' := by injection hrun
            obtain ⟨Δe, hpe, htfe, hbale, _⟩ := hex.1 s3 heq
            refine ⟨MwEv.ran i :: Δe, MwPost.consRan hpe ?_ ?_ (by omega), ?_, ?_, ?_⟩
            · rfl
            · rfl
            · have := hpe.mono
              dsimp only at this ⊢
              omega
            · intro hn
              exact threwFreeL_cons_ran i (htfe hn)
            · intro hn
              exact balancedL_cons_ran i (hbale hn)
          · rename_i e s3 heq
            split at hrun
            · rename_i hf hhf
              injection hrun with hrun2
              subst hrun2
              obtain ⟨Δ₀, k, hpe, htfe, hbale, _⟩ := hex.2 e s3 heq
              have hne : bot.errorHandler ≠ none := by rw [hhf]; simp
              obtain ⟨hbal₀, hki⟩ := hbale hne
              rw [hki] at hpe
              refine ⟨MwEv.ran i :: ((Δ₀ ++ [MwEv.threw i e]) ++ [MwEv.handled i e]),
                MwPost.consRan
                  (MwPost.trans_ranFree hpe (MwPost.handledStep s3 (hf e s3.ctx) i e)
                    (by intro k' hk; simp at hk))
                  ?_ ?_ (by omega), ?_, ?_, ?_⟩
              · rfl
              · rfl
              · have := hpe.mono
                dsimp only at this ⊢
                omega
              · intro hn
                exact absurd hhf (by rw [hn]; simp)
              · intro _
                have := balancedL_handled_close i e hbal₀
                exact balancedL_cons_ran i (by rwa [List.append_assoc] at this ⊢)
            · rename_i hhf
              exact MwOut.noConfusion hrun
        · intro e s' hrun
          split at hrun
          · rename_i s3 heq
            exact MwOut.noConfusion hrun
          · rename_i e' s3 heq
            split at hrun
            · rename_i hf hhf
              exact MwOut.noConfusion hrun
            · rename_i hhf
              obtain ⟨rfl, rfl⟩ : e' = e ∧ s3 = s' := by
                refine ⟨?_, ?_⟩ <;> injection hrun
              obtain ⟨Δ₀, k, hpe, htfe, _, _⟩ := hex.2 e' s3 heq
              refine ⟨hhf, MwEv.ran i :: Δ₀, k, ?_, ?_, ?_⟩
              · have := MwPost.consRan hpe (show _ = ((i : Nat) : Int) from rfl)
                  (show _ = s.trace ++ [MwEv.ran i] from rfl)
                  (show s.index < (i : Int) by omega)
                rwa [List.cons_append]
              · have := hpe.mono
                dsimp only at this ⊢
                omega
              · exact threwFreeL_cons_ran i (htfe hhf)
      · rw [dif_neg hi]
        constructor
        · intro s' h
          obtain rfl : ({ s with index := (i : Int) } : MwState) = s' := by injection h
          exact RunnerOk.setIndex _ i s (by omega)
        · intro e s' h
          exact MwOut.noConfusion h

/-- Claim C6: within one `runMiddlewares` pass, each middleware index starts
at most once — no matter how the middlewares invoke their continuations
(`botDoubleNext`-style double calls included) — and invoking the runner for
an index at most the guard `index` is a no-op, returning the state
unchanged. -/
theorem middleware_runs_at_most_once (bot : MessengerBot) (ctx : Context) (k : Nat) :
    countRan k (runMiddlewares bot ctx).state.trace ≤ 1 ∧
    (∀ (fuel i : Nat) (s : MwState), (i : Int) ≤ s.index →
        mwRunner bot fuel i s = MwOut.ok s) := by
  constructor
  · have hinv := mwRunner_inv bot bot.middlewares.length 0
      { ctx := ctx, index := -1, trace := [] } (by omega)
    cases hrun : runMiddlewares bot ctx with
    | ok s' =>
      obtain ⟨Δ, hp, _, _, _⟩ := hinv.1 s' hrun
      have htr := hp.traceEq
      simp only [List.nil_append] at htr
      rw [MwOut.state, htr]
      exact hp.ranOnce k
    | err e s' =>
      obtain ⟨_, Δ₀, j, hp, _, _⟩ := hinv.2 e s' hrun
      have htr := hp.traceEq
      simp only [List.nil_append] at htr
      rw [MwOut.state, htr]
      exact hp.ranOnce k
  · intro fuel i s h
    exact mwRunner_noop bot fuel i s h

theorem middleware_runs_at_most_once_witness :
    countRan 0 (runMiddlewares botDoubleNext ctxEmpty).state.trace ≤ 1 ∧
      mwRunner botDoubleNext 3 1 { ctx := ctxEmpty, index := 5, trace := [] } =
        MwOut.ok { ctx := ctxEmpty, index := 5, trace := [] } :=
  ⟨(middleware_runs_at_most_once botDoubleNext ctxEmpty 0).1,
   (middleware_runs_at_most_once botDoubleNext ctxEmpty 0).2 3 1 _ (by decide)⟩

/-- Claim C7: when a global error handler is registered, `runMiddlewares`
always completes normally, every error thrown by a middleware is consumed by
the handler (every `threw` event has a matching `handled` event), and the
remaining chain does not resume (no middleware starts after a throw). When
no handler is registered, an uncaught middleware error propagates out of
`runMiddlewares` as the error outcome carrying the thrown error, and the
trace ends exactly at the throw — the remainder of the chain for that event
is abandoned. -/
theorem middleware_error_routing (bot : MessengerBot) (ctx : Context) :
    (∀ hf, bot.errorHandler = some hf →
        ∃ s', runMiddlewares bot ctx = MwOut.ok s' ∧ balancedL s'.trace ∧
          sinceThrewRanFree s'.trace) ∧
    (bot.errorHandler = none →
        (∀ s', runMiddlewares bot ctx = MwOut.ok s' → threwFreeL s'.trace) ∧
        (∀ e s', runMiddlewares bot ctx = MwOut.err e s' →
            ∃ Δ₀ k, s'.trace = Δ₀ ++ [MwEv.threw k e] ∧ threwFreeL Δ₀ ∧
              sinceThrewRanFree s'.trace)) := by
  have hinv := mwRunner_inv bot bot.middlewares.length 0
      { ctx := ctx, index := -1, trace := [] } (by omega)
  constructor
  · intro hf hhf
    cases hrun : runMiddlewares bot ctx with
    | ok s' =>
      obtain ⟨Δ, hp, _, _, hbal⟩ := hinv.1 s' hrun
      have htr := hp.traceEq
      simp only [List.nil_append] at htr
      exact ⟨s', rfl, by rw [htr]; exact hbal (by rw [hhf]; simp),
        by rw [htr]; exact hp.orderly⟩
    | err e s' =>
      obtain ⟨hnone, _⟩ := hinv.2 e s' hrun
      rw [hhf] at hnone
      exact Option.noConfusion hnone
  · intro hnone
    constructor
    · intro s' hrun
      obtain ⟨Δ, hp, _, htf, _⟩ := hinv.1 s' hrun
      have htr := hp.traceEq
      simp only [List.nil_append] at htr
      rw [htr]
      exact htf hnone
    · intro e s' hrun
      obtain ⟨_, Δ₀, k, hp, _, htf⟩ := hinv.2 e s' hrun
      have htr := hp.traceEq
      simp only [List.nil_append] at htr
      exact ⟨Δ₀, k, htr, htf, by rw [htr]; exact hp.orderly⟩

theorem middleware_error_routing_witness :
    ∃ s', runMiddlewares botCatch ctxEmpty = MwOut.ok s' ∧ balancedL s'.trace ∧
      sinceThrewRanFree s'.trace :=
  (middleware_error_routing botCatch ctxEmpty).1 (fun _ c => c) rfl
